import Mathlib

/-!
Verification development for the tg-auto-channels posting core.

Shallow embedding of:
  app/services/posting.py   (_in_window, PostingService.should_post,
                             PostingService.create_and_send_post)
  app/services/scheduler.py (SchedulerService.run_tick)
  app/repositories/posts.py (PostRepository.record_post, last_sent_post_time)
  app/content/strategies/news_digest.py
                            (NewsDigestGenerator._collect_candidates, generate,
                             _pick_best_candidate, _is_probably_article,
                             _looks_like_section_link, _normalize_link,
                             _squash_spaces, _fetch_feed)
together with the parts of the Python standard library the above call into
(urllib.parse.urlparse as of CPython 3.11, restricted to ASCII input; the
bracketed-host and non-ASCII netloc validation passes of urlsplit are
modelled as accepting).

Conventions of the embedding:
  * datetimes are rational numbers of seconds (UTC); Python timedelta
    arithmetic, which the code performs with exact division 24 / f fed
    through float and microsecond quantisation, is idealised as exact
    rational arithmetic;
  * timezone conversion (datetime.astimezone with a ZoneInfo) is modelled
    as adding a fixed rational offset, DST is out of scope;
  * database sessions are modelled as lists of records; awaits are erased
    (every modelled function is sequential); a raised exception is an
    Except.error carrying str(exc).
Rational arithmetic is routed through mkRat-based helpers because the
Batteries Rat.add and friends are irreducible and do not evaluate under
the decide tactic; each helper comes with a lemma equating it with the
standard operation.
-/

/-- Subtraction on rationals, evaluable by the kernel.  Equals `a - b`. -/
def qsub (a b : ℚ) : ℚ := mkRat (a.num * b.den - b.num * a.den) (a.den * b.den)

/-- Addition on rationals, evaluable by the kernel.  Equals `a + b`. -/
def qadd (a b : ℚ) : ℚ := mkRat (a.num * b.den + b.num * a.den) (a.den * b.den)

/-- A Python datetime.time value: hour, minute, second.  The code copies
these three fields onto the current date and zeroes the microsecond, so a
stored sub-second part of the bound is never read. -/
structure TimeOfDay where
  hour : ℕ
  minute : ℕ
  second : ℕ
deriving DecidableEq, Repr

/-- Seconds since local midnight of a window bound. -/
def TimeOfDay.sod (t : TimeOfDay) : ℚ := (3600 * t.hour + 60 * t.minute + t.second : ℕ)

/-- A local datetime, split into a day index and seconds-of-day (which may
carry a fractional part).  Mirrors how the Python code only ever compares
datetimes that share the same date. -/
structure LocalDT where
  day : ℤ
  sod : ℚ
deriving DecidableEq, Repr

/-- Comparison of two local datetimes (lexicographic, as Python compares
datetime values field by field). -/
def LocalDT.le (a b : LocalDT) : Bool :=
  decide (a.day < b.day) || (decide (a.day = b.day) && decide (a.sod ≤ b.sod))

/-- Day index of an absolute timestamp (floor division by 86400). -/
def day_of (t : ℚ) : ℤ := Int.fdiv t.num (t.den * 86400)

/-- now.astimezone(tz), modelled as adding a fixed offset and splitting
into day and seconds-of-day. -/
def to_local (offset : ℚ) (now : ℚ) : LocalDT :=
  let t := qadd now offset
  ⟨day_of t, qsub t (mkRat (86400 * day_of t) 1)⟩

/-- Embeds posting.py _in_window: if either bound is missing the check
passes; otherwise the bounds are copied onto the current date
(datetime.replace with microsecond=0) and compared inclusively, with the
wrap-around disjunction when the window crosses midnight. -/
def in_window (now_local : LocalDT) (start? end? : Option TimeOfDay) : Bool :=
  match start?, end? with
  | some st, some en =>
    let start_dt : LocalDT := ⟨now_local.day, st.sod⟩
    let end_dt : LocalDT := ⟨now_local.day, en.sod⟩
    if start_dt.le end_dt then start_dt.le now_local && now_local.le end_dt
    else start_dt.le now_local || now_local.le end_dt
  | _, _ => true

/-- Post status enum from app/db/models/post.py. -/
inductive PostStatus
  | queued
  | sent
  | failed
deriving DecidableEq, Repr, BEq

/-- A row of the posts table, restricted to the columns the modelled code
reads or writes.  The Post model declares no image_url attribute:
migration 0002 adds an image_url column to the table, but the model and
the repository were never updated. -/
structure PostRec where
  channel_id : ℕ
  status : PostStatus
  scheduled_for : ℚ
  sent_at : Option ℚ
  error : Option String
  content : String
deriving DecidableEq, Repr

/-- PostRepository.record_post: builds the row that is added to the
session.  The session itself is threaded explicitly by the callers.  Its
parameters are channel_id, content, status, scheduled_for, error and
sent_at — there is no image_url parameter. -/
def record_post (channel_id : ℕ) (content : String) (status : PostStatus)
    (scheduled_for : ℚ) (error : Option String) (sent_at : Option ℚ) : PostRec :=
  ⟨channel_id, status, scheduled_for, sent_at, error, content⟩

/-- The declared parameter names of PostRepository.record_post, self
excluded. -/
def record_post_params : List String :=
  ["channel_id", "content", "status", "scheduled_for", "error", "sent_at"]

/-- Python keyword-call semantics for a record_post call: when every
keyword of the call site names a declared parameter, the row is built;
otherwise the call raises TypeError naming the first unexpected keyword,
before the function body runs. -/
def record_post_kwcall (kwargs : List String) (row : PostRec) : Except String PostRec :=
  match kwargs.find? (fun k => !record_post_params.contains k) with
  | none => Except.ok row
  | some k => Except.error ("record_post() got an unexpected keyword argument " ++ k)

/-- PostRepository.last_sent_post_time: the greatest sent_at among the
rows of the channel whose status is sent.  Rows with status failed or
queued never participate.  (A sent row with a NULL sent_at cannot be
produced by the modelled write paths and is ignored here.) -/
def opt_max (acc : Option ℚ) (t : ℚ) : Option ℚ :=
  match acc with
  | none => some t
  | some m => if m ≤ t then some t else some m

def last_sent_post_time (posts : List PostRec) (channel_id : ℕ) : Option ℚ :=
  ((posts.filter (fun p => decide (p.channel_id = channel_id)
      && decide (p.status = PostStatus.sent))).filterMap
    (fun p => p.sent_at)).foldl opt_max none

/-- A row of the channels table, restricted to the columns the modelled
code reads.  tz_offset stands for the ZoneInfo of the timezone column. -/
structure Channel where
  id : ℕ
  posting_frequency_per_day : ℤ
  posting_window_start : Option TimeOfDay
  posting_window_end : Option TimeOfDay
  tz_offset : ℚ
  auto_post_enabled : Bool
  generate_images : Bool
deriving DecidableEq, Repr

/-- PostingService.should_post: the window check on the channel-local
time, then the frequency gate 24h / max(frequency, 1) against the most
recent sent post. -/
def should_post (posts : List PostRec) (ch : Channel) (now : ℚ) : Bool :=
  let now_local := to_local ch.tz_offset now
  if !(in_window now_local ch.posting_window_start ch.posting_window_end) then false
  else
    let freq := if ch.posting_frequency_per_day < 1 then 1 else ch.posting_frequency_per_day
    let min_interval : ℚ := mkRat 86400 freq.toNat
    match last_sent_post_time posts ch.id with
    | none => true
    | some last_sent => decide (min_interval ≤ qsub now last_sent)

/-- Python truthiness of an optional string: None and the empty string
are falsy. -/
def py_truthy : Option String → Bool
  | none => false
  | some s => s ≠ ""

/-- Python whitespace test for str.strip and str.split with no argument
(ASCII range; the rarely used \x0b and \x0c forms are included). -/
def py_space (c : Char) : Bool :=
  c == ' ' || c == '\t' || c == '\n' || c == '\r' || c == '\x0b' || c == '\x0c'

/-- Python str.strip(): drops leading and trailing whitespace. -/
def py_strip (s : String) : String :=
  ⟨((s.data.dropWhile py_space).reverse.dropWhile py_space).reverse⟩

/-- The GeneratedImage dataclass of app/services/image_generation.py.
Note that it has url and image_bytes fields only; the orchestrator also
reads a data_url attribute that the dataclass does not define.  Bytes are
modelled as an opaque string. -/
structure GeneratedImage where
  url : Option String
  image_bytes : Option String
deriving DecidableEq, Repr

/-- Outcome of an orchestrator run that did not raise. -/
inductive RunOutcome
  | sent
  | skipped
deriving DecidableEq, Repr

deriving instance DecidableEq for Except

/-- Observable result of one PostingService.create_and_send_post call:
the history rows written (in order), the number of publisher calls
(send_photo or send_message) issued, and the returned or raised outcome. -/
structure RunResult where
  records : List PostRec
  publish_calls : ℕ
  outcome : Except String RunOutcome
deriving DecidableEq, Repr

/-- PostingService.create_and_send_post, with its external effects passed
in as oracles: content is the string returned by the content generator,
image_result is the image generation outcome when a generator is
configured (none models a missing generator, which only logs a warning),
and send_result is the outcome of the one Telegram send call.

The image block mirrors the source: on a successful generation the code
evaluates generated_image.url or generated_image.data_url, and since
GeneratedImage defines no data_url attribute this raises AttributeError
whenever url is falsy; the surrounding except swallows it and leaves
image_url as None.  The computed image_url is then dead in the staged
source: both record_post call sites pass it under an image_url keyword
that record_post does not declare, so each call raises TypeError
(record_post_kwcall) before a row is built.  On the successful-send path
that TypeError is caught by the same except block, whose own record_post
call raises TypeError again, and that second TypeError propagates before
the bare raise is reached; on the failed-send path the except block
record_post call raises and its TypeError propagates in place of the
delivery error.  Either way no row is written. -/
def create_and_send_post (ch : Channel) (content : String)
    (image_result : Option (Except String GeneratedImage))
    (send_result : Except String Unit) (now : ℚ) : RunResult :=
  if content = "" || py_strip content = "" then
    ⟨[], 0, Except.ok RunOutcome.skipped⟩
  else
    let scheduled_for := now
    let _image_url : Option String :=
      if ch.generate_images then
        match image_result with
        | none => none
        | some (Except.error _) => none
        | some (Except.ok gi) => if py_truthy gi.url then gi.url else none
      else none
    match send_result with
    | Except.ok _ =>
      match record_post_kwcall
          ["channel_id", "content", "image_url", "status", "scheduled_for", "sent_at"]
          (record_post ch.id content PostStatus.sent scheduled_for none (some now)) with
      | Except.ok r => ⟨[r], 1, Except.ok RunOutcome.sent⟩
      | Except.error e1 =>
        match record_post_kwcall
            ["channel_id", "content", "image_url", "status", "scheduled_for", "error"]
            (record_post ch.id content PostStatus.failed scheduled_for (some e1) none) with
        | Except.ok r2 => ⟨[r2], 1, Except.error e1⟩
        | Except.error e2 => ⟨[], 1, Except.error e2⟩
    | Except.error e =>
      match record_post_kwcall
          ["channel_id", "content", "image_url", "status", "scheduled_for", "error"]
          (record_post ch.id content PostStatus.failed scheduled_for (some e) none) with
      | Except.ok r => ⟨[r], 1, Except.error e⟩
      | Except.error e2 => ⟨[], 1, Except.error e2⟩

/-- SchedulerService.run_tick, with the two PostingService calls passed in
as oracles (sp for should_post, rp for create_and_send_post, whose raised
exception surfaces as Except.error).  Returns the list of auto-posting
channels for which should_post was evaluated, in order, and the exception
that escaped the loop, if any.  The source loop body has no try/except,
so an error from rp ends the traversal immediately. -/
def run_tick (sp : Channel → Bool) (rp : Channel → Except String Unit) :
    List Channel → List Channel × Option String
  | [] => ([], none)
  | c :: rest =>
    if !c.auto_post_enabled then run_tick sp rp rest
    else
      if sp c then
        match rp c with
        | Except.ok _ =>
          let r := run_tick sp rp rest
          (c :: r.1, r.2)
        | Except.error e => ([c], some e)
      else
        let r := run_tick sp rp rest
        (c :: r.1, r.2)

/-- C0 control characters and space: the set urlsplit strips from the left
of its input (CPython 3.11 _WHATWG_C0_CONTROL_OR_SPACE). -/
def is_c0_or_space (c : Char) : Bool := c.toNat ≤ 32

/-- ASCII letter (what isascii plus isalpha test in urlsplit). -/
def py_alpha (c : Char) : Bool :=
  (65 ≤ c.toNat && c.toNat ≤ 90) || (97 ≤ c.toNat && c.toNat ≤ 122)

/-- ASCII digit. -/
def py_digit (c : Char) : Bool := 48 ≤ c.toNat && c.toNat ≤ 57

/-- urlsplit removes tab, CR and LF wherever they occur
(_UNSAFE_URL_BYTES_TO_REMOVE). -/
def remove_unsafe (l : List Char) : List Char :=
  l.filter (fun c => !(c == '\t' || c == '\r' || c == '\n'))

/-- The characters allowed in a URL scheme (urllib scheme_chars). -/
def scheme_char (c : Char) : Bool :=
  py_alpha c || py_digit c || c == '+' || c == '-' || c == '.'

/-- The scheme detection of urlsplit: the text before the first colon is
taken (lower-cased) as the scheme when it is nonempty, starts with an
ASCII letter and consists of scheme characters only. -/
def split_scheme (url : List Char) : List Char × List Char :=
  match url.findIdx? (fun c => c == ':') with
  | none => ([], url)
  | some i =>
    if i ≠ 0 && (match url with | c :: _ => py_alpha c | [] => false)
        && (url.take i).all scheme_char then
      ((url.take i).map Char.toLower, url.drop (i + 1))
    else ([], url)

/-- urllib _splitnetloc: the netloc extends to the first of the three
delimiters slash, question mark, hash. -/
def netloc_delim (c : Char) : Bool := c == '/' || c == '?' || c == '#'

def split_netloc (rest : List Char) : List Char × List Char :=
  (rest.takeWhile (fun c => !netloc_delim c), rest.dropWhile (fun c => !netloc_delim c))

/-- Split at the first occurrence of a character, dropping it; identity
with an empty second component when the character does not occur. -/
def split_first (ch : Char) (l : List Char) : List Char × List Char :=
  match l.findIdx? (fun c => c == ch) with
  | none => (l, [])
  | some i => (l.take i, l.drop (i + 1))

/-- Result of urllib.parse.urlsplit. -/
structure SplitRes where
  scheme : List Char
  netloc : List Char
  path : List Char
  query : List Char
  fragment : List Char
deriving DecidableEq, Repr

/-- urllib.parse.urlsplit (CPython 3.11), for ASCII input.  none models a
raised ValueError (mismatched square brackets in the netloc); the
semantic validation of a bracketed host and the NFKC check of a non-ASCII
netloc are modelled as accepting. -/
def urlsplit (url : String) : Option SplitRes :=
  let u := remove_unsafe (url.data.dropWhile is_c0_or_space)
  let sp := split_scheme u
  let scheme := sp.1
  let u1 := sp.2
  if u1.take 2 == ['/', '/'] then
    let nl := split_netloc (u1.drop 2)
    let netloc := nl.1
    if (netloc.contains '[' && !netloc.contains ']')
        || (netloc.contains ']' && !netloc.contains '[') then none
    else
      let f := split_first '#' nl.2
      let q := split_first '?' f.1
      some ⟨scheme, netloc, q.1, q.2, f.2⟩
  else
    let f := split_first '#' u1
    let q := split_first '?' f.1
    some ⟨scheme, [], q.1, q.2, f.2⟩

/-- The schemes for which urlparse performs the params split
(urllib uses_params). -/
def uses_params : List String :=
  ["", "ftp", "hdl", "prospero", "http", "imap", "https", "shttp",
   "rtsp", "rtsps", "rtspu", "sip", "sips", "mms", "sftp", "tel"]

/-- urllib _splitparams: the params are what follows the first semicolon
of the last path segment (the first semicolon at or after the last slash;
the first semicolon anywhere when the path has no slash). -/
def split_params (url : List Char) : List Char × List Char :=
  if url.contains '/' then
    let j := url.length - 1 - ((url.reverse.findIdx? (fun c => c == '/')).getD 0)
    match (url.drop j).findIdx? (fun c => c == ';') with
    | none => (url, [])
    | some k => (url.take (j + k), url.drop (j + k + 1))
  else
    match url.findIdx? (fun c => c == ';') with
    | none => (url, [])
    | some i => (url.take i, url.drop (i + 1))

/-- Result of urllib.parse.urlparse, restricted to the components the
modelled code reads. -/
structure ParseRes where
  scheme : List Char
  netloc : List Char
  path : List Char
  params : List Char
  query : List Char
deriving DecidableEq, Repr

/-- urllib.parse.urlparse: urlsplit followed by the params split, which
only happens for schemes in uses_params when the path contains a
semicolon. -/
def urlparse (link : String) : Option ParseRes :=
  (urlsplit link).map (fun r =>
    if uses_params.contains ⟨r.scheme⟩ && r.path.contains ';' then
      let pp := split_params r.path
      ⟨r.scheme, r.netloc, pp.1, pp.2, r.query⟩
    else ⟨r.scheme, r.netloc, r.path, [], r.query⟩)

/-- Python str.rstrip with a slash argument: drops every trailing slash. -/
def rstrip_slash (l : List Char) : List Char :=
  (l.reverse.dropWhile (fun c => c == '/')).reverse

/-- NewsDigestGenerator._normalize_link: unchanged on parse failure or
missing netloc, otherwise lower-cased scheme (http when absent) and
netloc, path without trailing slashes, query/params/fragment dropped. -/
def normalize_link (link : String) : String :=
  match urlparse link with
  | none => link
  | some parsed =>
    if parsed.netloc.isEmpty then link
    else
      let ls := parsed.scheme.map Char.toLower
      let scheme := if ls.isEmpty then "http".data else ls
      let netloc := parsed.netloc.map Char.toLower
      let path := rstrip_slash parsed.path
      ⟨scheme ++ ':' :: '/' :: '/' :: netloc ++ path⟩

/-- A candidate news item (NewsCandidate dataclass). -/
structure NewsCandidate where
  title : String
  link : String
  summary : String
  published_at : ℚ
  source : String
deriving DecidableEq, Repr

/-- Collapses whitespace runs and trims both ends, as the join of
str.split does in _squash_spaces.  State 0: nothing emitted yet, 1: right
after a word character, 2: after a word with pending whitespace. -/
def squash_go : ℕ → List Char → List Char
  | _, [] => []
  | st, c :: rest =>
    if py_space c then squash_go (if st == 0 then 0 else 2) rest
    else if st == 2 then ' ' :: c :: squash_go 1 rest
    else c :: squash_go 1 rest

/-- NewsDigestGenerator._squash_spaces. -/
def squash_spaces (s : String) : String := ⟨squash_go 0 s.data⟩

/-- The section and listing markers of _looks_like_section_link. -/
def section_markers : List String :=
  ["section", "sections", "category", "categories", "specials", "topics",
   "tags", "collections"]

/-- Python substring containment on character lists. -/
def is_substring (needle hay : List Char) : Bool := decide (needle <:+: hay)

/-- NewsDigestGenerator._looks_like_section_link.  The source calls
urlparse without a try, so a link that makes urlparse raise would
propagate; such links are outside the modelled domain and mapped to
false here.  Note the marker test is substring containment of
slash-plus-marker in the lower-cased path, not a path segment test. -/
def looks_like_section_link (link : String) : Bool :=
  match urlparse link with
  | none => false
  | some parsed =>
    let path := parsed.path.map Char.toLower
    if section_markers.any (fun m => is_substring ('/' :: m.data) path) then true
    else if !parsed.query.isEmpty
        && is_substring "section".data (parsed.query.map Char.toLower) then true
    else false

/-- NewsDigestGenerator._is_probably_article. -/
def is_probably_article (c : NewsCandidate) : Bool :=
  if (squash_spaces c.summary).length < 20 then false
  else if looks_like_section_link c.link then false
  else true

/-- Stable insertion of a candidate into a list sorted by published_at
descending: the new element, which precedes the list elements in the
original order, goes before the first element whose key is not greater. -/
def insert_desc (c : NewsCandidate) : List NewsCandidate → List NewsCandidate
  | [] => [c]
  | d :: rest =>
    if d.published_at ≤ c.published_at then c :: d :: rest else d :: insert_desc c rest

/-- Python sorted(candidates, key=published_at, reverse=True): the unique
stable descending order, realised by stable insertion sort. -/
def sorted_desc (l : List NewsCandidate) : List NewsCandidate := l.foldr insert_desc []

/-- NewsDigestGenerator._pick_best_candidate.  rand models the draw of
random.Random(int(now_utc.timestamp())).choice, abstracted as an
arbitrary natural taken modulo the pool size (random.choice always
returns an element of a nonempty sequence).  On an empty pool the source
would raise inside random.choice; here get? returns none, and the only
caller guards against the empty case. -/
def pick_best_candidate (pool_size : ℕ) (rand : ℕ) (cands : List NewsCandidate) :
    Option NewsCandidate :=
  let pool := (sorted_desc cands).take pool_size
  let preferred := pool.filter is_probably_article
  let chosen_pool := if preferred.isEmpty then pool else preferred
  chosen_pool.get? (rand % chosen_pool.length)

/-- NewsDigestGenerator._collect_candidates: one fetch per source, in
source order (asyncio.gather preserves order); a source whose fetch
raised (Except.error, via return_exceptions=True) is logged and skipped,
every other result is appended.  The fetch outcomes are supplied by the
oracle f. -/
def collect_candidates (sources : List String)
    (f : String → Except String (List NewsCandidate)) : List NewsCandidate :=
  sources.foldl
    (fun acc s =>
      match f s with
      | Except.error _ => acc
      | Except.ok cs => acc ++ cs)
    []

/-- A parsed feed entry as _fetch_feed reads it: the three optional
parsed timestamps, and optional title, link and summary.  The summary
extraction of _extract_summary (string or first content variant) is
abstracted into the optional summary field. -/
structure FeedEntry where
  title : Option String
  link : Option String
  summary : Option String
  published_parsed : Option ℚ
  updated_parsed : Option ℚ
  created_parsed : Option ℚ
deriving DecidableEq, Repr

/-- NewsDigestGenerator._extract_datetime: first available parsed
timestamp, else the fetch time. -/
def extract_datetime (e : FeedEntry) (fallback : ℚ) : ℚ :=
  match e.published_parsed with
  | some t => t
  | none =>
    match e.updated_parsed with
    | some t => t
    | none =>
      match e.created_parsed with
      | some t => t
      | none => fallback

/-- The entry loop of NewsDigestGenerator._fetch_feed: the raw entry list
is capped at max_entries_per_source first, then entries older than the
cutoff are dropped and the rest become candidates. -/
def fetch_feed (url : String) (feed_title : Option String) (entries : List FeedEntry)
    (cap : ℕ) (cutoff now_utc : ℚ) : List NewsCandidate :=
  let title := feed_title.getD url
  (entries.take cap).filterMap (fun e =>
    let published_at := extract_datetime e now_utc
    if published_at < cutoff then none
    else
      some ⟨(e.title.getD "Без заголовка"), (e.link.getD url), (e.summary.getD ""),
        published_at, title⟩)

/-- The candidate selection phase of NewsDigestGenerator.generate, from
the flattened source list to the picked candidate (none models every
early return of the empty string before _summarize_candidate is
reached).  recent_links is the set of links extracted from recent post
history; fetch and rand are the network and randomness oracles. -/
def generate_select (sources : List String)
    (fetch : String → Except String (List NewsCandidate))
    (recent_links : List String) (pool_size rand : ℕ) : Option NewsCandidate :=
  if sources.isEmpty then none
  else
    let candidates := collect_candidates sources fetch
    if candidates.isEmpty then none
    else
      let seen_links := (recent_links.filter (fun l => l ≠ "")).map normalize_link
      let filtered := candidates.filter (fun c => !seen_links.contains (normalize_link c.link))
      if !filtered.isEmpty then pick_best_candidate pool_size rand filtered
      else if !seen_links.isEmpty then none
      else pick_best_candidate pool_size rand candidates


/-- The window rule as section 4.4 of the specification words it, on the
seconds-of-day of the local time. -/
def window_spec (now_sod : ℚ) (start? end? : Option TimeOfDay) : Prop :=
  match start?, end? with
  | some st, some en =>
    if st.sod ≤ en.sod then st.sod ≤ now_sod ∧ now_sod ≤ en.sod
    else now_sod ≥ st.sod ∨ now_sod ≤ en.sod
  | _, _ => True

/-- Splits a character list at every slash (the slashes are dropped,
empty pieces kept). -/
def split_slash (l : List Char) : List (List Char) :=
  l.foldr
    (fun c acc =>
      if c == '/' then [] :: acc
      else
        match acc with
        | [] => [[c]]
        | w :: rest => (c :: w) :: rest)
    [[]]

/-- The article test as claim C8 words it: the markers must not occur as
path segments of the link (and the query must not mention section).
Differs from _is_probably_article, which matches the markers as
substrings of the path. -/
def article_pred_per_claim (c : NewsCandidate) : Bool :=
  match urlparse c.link with
  | none => false
  | some parsed =>
    let segs := (split_slash (parsed.path.map Char.toLower)).filter (fun s => !s.isEmpty)
    decide (20 ≤ (squash_spaces c.summary).length)
      && !(segs.any (fun s => section_markers.contains ⟨s⟩))
      && !(!parsed.query.isEmpty && is_substring "section".data (parsed.query.map Char.toLower))

/-- A character that may appear in a tame netloc: none of the three
netloc delimiters and none of the removed bytes. -/
def netloc_ok_char (c : Char) : Bool :=
  !netloc_delim c && !(c == '\t' || c == '\r' || c == '\n')

/-- A character that may appear in a tame path: no query, fragment or
params delimiter and none of the removed bytes. -/
def path_ok_char (c : Char) : Bool :=
  !(c == '?' || c == '#' || c == ';' || c == '\t' || c == '\r' || c == '\n')

/-- A syntactically tame scheme: nonempty, scheme characters only,
leading ASCII letter. -/
def good_scheme : List Char → Bool
  | [] => false
  | c :: t => py_alpha c && (c :: t).all scheme_char

/-- A syntactically tame netloc: nonempty, netloc characters only, with
consistent square brackets. -/
def good_netloc (n : List Char) : Bool :=
  !n.isEmpty && n.all netloc_ok_char && (n.contains '[' == n.contains ']')

/-- A syntactically tame path: empty or slash-led, path characters
only. -/
def good_path : List Char → Bool
  | [] => true
  | c :: t => c == '/' && (c :: t).all path_ok_char

/-- Assembles scheme://netloc/path from components. -/
def mk_url (s n p : List Char) : String := ⟨s ++ ':' :: '/' :: '/' :: n ++ p⟩

/-- A channel used for concrete scenarios: frequency 1, no window, UTC,
auto-posting, no images. -/
def ch0 : Channel := ⟨0, 1, none, none, 0, true, false⟩

/-- A second scenario channel. -/
def chB : Channel := ⟨1, 1, none, none, 0, true, false⟩

/-- A scenario channel with frequency 2 per day. -/
def ch_freq2 : Channel := ⟨0, 2, none, none, 0, true, false⟩

/-- Scenario oracle: every channel is due. -/
def sp_all (_ : Channel) : Bool := true

/-- Scenario oracle: posting raises for channel 0 and succeeds for every
other channel. -/
def rp_fail_first (c : Channel) : Except String Unit :=
  if c.id = 0 then Except.error "boom" else Except.ok ()

/-- Scenario feed items for scenario D. -/
def d1 : NewsCandidate := ⟨"t1", "http://news.example/1", "first summary text goes here", 3, "src"⟩

def d2 : NewsCandidate := ⟨"t2", "http://news.example/2", "second summary text goes here", 2, "src"⟩

def d3 : NewsCandidate := ⟨"t3", "http://news.example/3", "third summary text goes here", 1, "src"⟩

/-- Scenario D oracle: source a times out, source b yields three valid
entries. -/
def fetch_d (s : String) : Except String (List NewsCandidate) :=
  if s = "a" then Except.error "timeout" else Except.ok [d1, d2, d3]

/-- A candidate whose link is in the recent-links set of scenario C6. -/
def c6_cand : NewsCandidate := ⟨"t", "http://news.example/x", "a perfectly long enough summary", 1, "s"⟩

/-- C6 scenario oracle: the single source yields one candidate, which the
recent links already cover. -/
def fetch_c6a (_ : String) : Except String (List NewsCandidate) := Except.ok [c6_cand]

/-- C6 scenario oracle: the single source yields no candidate at all. -/
def fetch_c6b (_ : String) : Except String (List NewsCandidate) := Except.ok []

/-- The candidate of the C8 counterexample: a long summary and a link
whose path segments carry no marker, though sectional contains the
substring section. -/
def cex_c8 : NewsCandidate :=
  ⟨"t", "http://example.com/sectional-news/story1", "This is a sufficiently long summary.", 0, "src"⟩

/-- One sent post at time 0 for channel 0. -/
def w3_posts : List PostRec :=
  [record_post 0 "old content" PostStatus.sent 0 none (some 0)]


theorem rat_num_eq (q : ℚ) : (q.num : ℚ) = q * (q.den : ℚ) := by
  have hd : (q.den : ℚ) ≠ 0 := by exact_mod_cast q.den_nz
  calc (q.num : ℚ) = (q.num : ℚ) / (q.den : ℚ) * (q.den : ℚ) := (div_mul_cancel₀ _ hd).symm
    _ = q * (q.den : ℚ) := by rw [Rat.num_div_den]

theorem qsub_eq (a b : ℚ) : qsub a b = a - b := by
  rw [qsub, Rat.mkRat_eq_div]
  have ha : (a.den : ℚ) ≠ 0 := by exact_mod_cast a.den_nz
  have hb : (b.den : ℚ) ≠ 0 := by exact_mod_cast b.den_nz
  push_cast
  field_simp
  rw [rat_num_eq a, rat_num_eq b]
  ring

theorem qadd_eq (a b : ℚ) : qadd a b = a + b := by
  rw [qadd, Rat.mkRat_eq_div]
  have ha : (a.den : ℚ) ≠ 0 := by exact_mod_cast a.den_nz
  have hb : (b.den : ℚ) ≠ 0 := by exact_mod_cast b.den_nz
  push_cast
  field_simp
  rw [rat_num_eq a, rat_num_eq b]
  ring

theorem toNat_ofNat_of_valid (n : ℕ) (h : n < 55296) : (Char.ofNat n).toNat = n := by
  rw [Char.ofNat, dif_pos]
  · rfl
  · exact Or.inl (by omega)

/-- Char.toLower either fixes its argument or yields an ASCII lowercase
letter (code 97..122). -/
theorem toLower_shape (c : Char) :
    c.toLower = c ∨ (97 ≤ c.toLower.toNat ∧ c.toLower.toNat ≤ 122) := by
  rw [Char.toLower]
  by_cases h : c.toNat ≥ 65 ∧ c.toNat ≤ 90
  · right
    rw [if_pos h]
    have := toNat_ofNat_of_valid (c.toNat + 32) (by omega)
    omega
  · left
    rw [if_neg h]

theorem toLower_fix (c : Char) (h : ¬(65 ≤ c.toNat ∧ c.toNat ≤ 90)) : c.toLower = c := by
  rw [Char.toLower, if_neg]
  omega

theorem toLower_idem (c : Char) : c.toLower.toLower = c.toLower := by
  rcases toLower_shape c with h | h
  · rw [h, h]
  · exact toLower_fix _ (by omega)

theorem ldt_le_same_day (d : ℤ) (x y : ℚ) :
    LocalDT.le ⟨d, x⟩ ⟨d, y⟩ = decide (x ≤ y) := by
  simp [LocalDT.le]

/-- C4: the window check passes when either bound is absent; with both
bounds set and start at or before end it passes exactly when the local
time lies inclusively between them; with start after end it passes
exactly when the local time is at or after start or at or before end. -/
theorem c4_window_equiv (now : LocalDT) (s e : Option TimeOfDay) :
    in_window now s e = true ↔ window_spec now.sod s e := by
  cases now with
  | mk d sod =>
    cases s with
    | none => cases e <;> simp [in_window, window_spec]
    | some st =>
      cases e with
      | none => simp [in_window, window_spec]
      | some en =>
        simp only [in_window, window_spec, ldt_le_same_day]
        by_cases h : st.sod ≤ en.sod <;> simp [h]

/-- C9: a run whose synthesised content is empty or all-whitespace is a
skip: no history row, no publish call, normal return. -/
theorem c9_blank_content_skips (ch : Channel) (content : String)
    (img : Option (Except String GeneratedImage)) (send : Except String Unit) (now : ℚ)
    (h : content = "" ∨ py_strip content = "") :
    create_and_send_post ch content img send now = ⟨[], 0, Except.ok RunOutcome.skipped⟩ := by
  rcases h with h | h <;> simp [create_and_send_post, h]

theorem c9_blank_content_skips_witness :
    ((" \t " : String) = "" ∨ py_strip " \t " = "") ∧
    create_and_send_post ch0 " \t " none (Except.ok ()) 7 =
      ⟨[], 0, Except.ok RunOutcome.skipped⟩ :=
  ⟨Or.inr (by decide),
   c9_blank_content_skips ch0 " \t " none (Except.ok ()) 7 (Or.inr (by decide))⟩

/-- C10: the per-source cap is applied to the raw entry list before the
staleness filter, so a feed whose first cap entries are all older than
the cutoff contributes nothing, whatever the later entries hold; and
entries beyond the first cap are never consulted at all. -/
theorem c10_cap_before_staleness (url : String) (ft : Option String)
    (entries : List FeedEntry) (cap : ℕ) (cutoff now_utc : ℚ)
    (h : ∀ e ∈ entries.take cap, extract_datetime e now_utc < cutoff) :
    fetch_feed url ft entries cap cutoff now_utc = [] ∧
    fetch_feed url ft entries cap cutoff now_utc =
      fetch_feed url ft (entries.take cap) cap cutoff now_utc := by
  constructor
  · simp only [fetch_feed]
    apply List.filterMap_eq_nil_iff.mpr
    intro e he
    simp [h e he]
  · simp [fetch_feed, List.take_take]

theorem c10_cap_before_staleness_witness :
    (∀ e ∈ ((List.replicate 5 (⟨none, none, none, some 0, none, none⟩ : FeedEntry))
        ++ [(⟨none, none, none, some 50, none, none⟩ : FeedEntry)]).take 5,
      extract_datetime e 100 < 10) ∧
    fetch_feed "u" none ((List.replicate 5 (⟨none, none, none, some 0, none, none⟩ : FeedEntry))
        ++ [(⟨none, none, none, some 50, none, none⟩ : FeedEntry)]) 5 10 100 = [] ∧
    fetch_feed "u" none ((List.replicate 5 (⟨none, none, none, some 0, none, none⟩ : FeedEntry))
        ++ [(⟨none, none, none, some 50, none, none⟩ : FeedEntry)]) 5 10 100 =
      fetch_feed "u" none (((List.replicate 5 (⟨none, none, none, some 0, none, none⟩ : FeedEntry))
        ++ [(⟨none, none, none, some 50, none, none⟩ : FeedEntry)]).take 5) 5 10 100 :=
  ⟨by decide,
   c10_cap_before_staleness "u" none _ 5 10 100 (by decide)⟩

/-- C5: aggregation returns exactly the concatenation, in source order,
of the candidate lists of the sources whose fetch succeeded; a failing
source contributes nothing and aborts nothing (the function is total).
The second conjunct is end-to-end scenario D: one source times out, the
other yields three in-lookback entries, and exactly those three come
back. -/
theorem c5_failed_sources_isolated :
    (∀ (sources : List String) (f : String → Except String (List NewsCandidate)),
      collect_candidates sources f =
        (sources.filterMap (fun s =>
          match f s with
          | Except.ok cs => some cs
          | Except.error _ => none)).flatten) ∧
    collect_candidates ["a", "b"] fetch_d = [d1, d2, d3] := by
  constructor
  · intro sources f
    have go : ∀ (l : List String) (acc : List NewsCandidate),
        l.foldl (fun acc s =>
            match f s with
            | Except.error _ => acc
            | Except.ok cs => acc ++ cs) acc
          = acc ++ (l.filterMap (fun s =>
              match f s with
              | Except.ok cs => some cs
              | Except.error _ => none)).flatten := by
      intro l
      induction l with
      | nil => simp
      | cons s t ih =>
        intro acc
        cases hfs : f s with
        | ok cs => simp [hfs, ih]
        | error e => simp [hfs, ih]
    simpa [collect_candidates] using go sources []
  · rfl

/-- C3: inside the posting window, a channel with frequency f at least 1
posts when it has no sent history; with the most recent sent post at t0
it must wait out exactly 24h/f: strictly inside the interval should_post
is false, from the boundary t0 + 24h/f on it is true.  Failed posts never
enter the lookup (last conjunct). -/
theorem c3_frequency_gate (posts : List PostRec) (ch : Channel) (now : ℚ)
    (hf : 1 ≤ ch.posting_frequency_per_day)
    (hwin : in_window (to_local ch.tz_offset now) ch.posting_window_start
      ch.posting_window_end = true) :
    (last_sent_post_time posts ch.id = none → should_post posts ch now = true) ∧
    (∀ t0, last_sent_post_time posts ch.id = some t0 →
      ((t0 < now ∧ now < t0 + 86400 / (ch.posting_frequency_per_day : ℚ)) →
        should_post posts ch now = false) ∧
      (t0 + 86400 / (ch.posting_frequency_per_day : ℚ) ≤ now →
        should_post posts ch now = true)) ∧
    (∀ p, p.status ≠ PostStatus.sent →
      last_sent_post_time (p :: posts) ch.id = last_sent_post_time posts ch.id) := by
  have hfreq : (if ch.posting_frequency_per_day < 1 then 1
      else ch.posting_frequency_per_day) = ch.posting_frequency_per_day := by
    rw [if_neg]
    omega
  have hcast : ((ch.posting_frequency_per_day.toNat : ℕ) : ℚ)
      = (ch.posting_frequency_per_day : ℚ) := by
    have h1 : (ch.posting_frequency_per_day.toNat : ℤ) = ch.posting_frequency_per_day :=
      Int.toNat_of_nonneg (by omega)
    exact_mod_cast congrArg (fun z : ℤ => (z : ℚ)) h1
  have hmk : (mkRat 86400 ch.posting_frequency_per_day.toNat : ℚ)
      = 86400 / (ch.posting_frequency_per_day : ℚ) := by
    rw [Rat.mkRat_eq_div, hcast]
    norm_num
  refine ⟨?_, ?_, ?_⟩
  · intro h
    simp [should_post, hwin, h]
  · intro t0 h
    constructor
    · intro hlt
      simp only [should_post, hwin, Bool.not_true, Bool.false_eq_true, if_false, h, hfreq, hmk,
        qsub_eq]
      simp only [decide_eq_false_iff_not, not_le]
      have := hlt.2
      linarith
    · intro hge
      simp only [should_post, hwin, Bool.not_true, Bool.false_eq_true, if_false, h, hfreq, hmk,
        qsub_eq]
      simp only [decide_eq_true_eq]
      linarith
  · intro p hp
    simp [last_sent_post_time, List.filter_cons, hp]

theorem c3_frequency_gate_witness :
    (1 ≤ ch_freq2.posting_frequency_per_day) ∧
    (in_window (to_local ch_freq2.tz_offset 43200) ch_freq2.posting_window_start
      ch_freq2.posting_window_end = true) ∧
    ((last_sent_post_time w3_posts ch_freq2.id = none →
        should_post w3_posts ch_freq2 43200 = true) ∧
      (∀ t0, last_sent_post_time w3_posts ch_freq2.id = some t0 →
        ((t0 < 43200 ∧ (43200 : ℚ) < t0 + 86400 / (ch_freq2.posting_frequency_per_day : ℚ)) →
          should_post w3_posts ch_freq2 43200 = false) ∧
        (t0 + 86400 / (ch_freq2.posting_frequency_per_day : ℚ) ≤ 43200 →
          should_post w3_posts ch_freq2 43200 = true)) ∧
      (∀ p, p.status ≠ PostStatus.sent →
        last_sent_post_time (p :: w3_posts) ch_freq2.id =
          last_sent_post_time w3_posts ch_freq2.id)) :=
  ⟨by decide, by decide, c3_frequency_gate w3_posts ch_freq2 43200 (by decide) (by decide)⟩

theorem kwcall_sent_raises (row : PostRec) :
    record_post_kwcall
        ["channel_id", "content", "image_url", "status", "scheduled_for", "sent_at"] row
      = Except.error "record_post() got an unexpected keyword argument image_url" := by
  rfl

theorem kwcall_failed_raises (row : PostRec) :
    record_post_kwcall
        ["channel_id", "content", "image_url", "status", "scheduled_for", "error"] row
      = Except.error "record_post() got an unexpected keyword argument image_url" := by
  rfl

/-- C1: the claim is right and the staged code is wrong.  Both record
call sites of create_and_send_post pass an image_url keyword that
PostRepository.record_post does not declare (and Post has no image_url
attribute), so each call raises TypeError before a row is built: every
non-skip run that reaches delivery makes exactly one publish call,
writes zero history records — never the one sent or failed row the claim
requires — and surfaces the TypeError, on the successful-delivery and
the failed-delivery paths alike. -/
theorem c1_zero_records_bug (ch : Channel) (content : String)
    (img : Option (Except String GeneratedImage)) (send : Except String Unit) (now : ℚ)
    (hc : ¬(content = "" ∨ py_strip content = "")) :
    (create_and_send_post ch content img send now).records = [] ∧
    (create_and_send_post ch content img send now).publish_calls = 1 ∧
    (create_and_send_post ch content img send now).outcome
      = Except.error "record_post() got an unexpected keyword argument image_url" := by
  push_neg at hc
  obtain ⟨h1, h2⟩ := hc
  have hcond : (decide (content = "") || decide (py_strip content = "")) = false := by
    simp [h1, h2]
  cases send with
  | ok u =>
    simp only [create_and_send_post, hcond, Bool.false_eq_true, if_false,
      kwcall_sent_raises, kwcall_failed_raises]
    refine ⟨?_, ?_, ?_⟩ <;> first | rfl | trivial
  | error e =>
    simp only [create_and_send_post, hcond, Bool.false_eq_true, if_false,
      kwcall_failed_raises]
    refine ⟨?_, ?_, ?_⟩ <;> first | rfl | trivial

theorem c1_zero_records_bug_witness :
    (¬(("hello world" : String) = "" ∨ py_strip "hello world" = "")) ∧
    ((create_and_send_post ch0 "hello world" none (Except.error "net down") 5).records = [] ∧
    (create_and_send_post ch0 "hello world" none (Except.error "net down") 5).publish_calls = 1 ∧
    (create_and_send_post ch0 "hello world" none (Except.error "net down") 5).outcome
      = Except.error "record_post() got an unexpected keyword argument image_url") :=
  ⟨by decide,
   c1_zero_records_bug ch0 "hello world" none (Except.error "net down") 5 (by decide)⟩

/-- C2 counterexample: with two auto-posting channels where posting for
the first raises, run_tick stops with that error and the second channel
is never evaluated, refuting the claimed per-channel containment. -/
theorem c2_counterexample :
    run_tick sp_all rp_fail_first [ch0, chB] = ([ch0], some "boom") ∧
    ¬(∀ c ∈ [ch0, chB], c.auto_post_enabled = true →
        c ∈ (run_tick sp_all rp_fail_first [ch0, chB]).1) := by
  decide

/-- C2 amended: the loop body of run_tick has no exception handler, so an
exception raised while posting for a channel aborts the tick there: the
tick surfaces that error and no later channel of the list is evaluated,
whatever follows. -/
theorem c2_tick_aborts (sp : Channel → Bool) (rp : Channel → Except String Unit)
    (c : Channel) (rest : List Channel) (e : String)
    (hauto : c.auto_post_enabled = true) (hsp : sp c = true)
    (hrp : rp c = Except.error e) :
    run_tick sp rp (c :: rest) = ([c], some e) := by
  simp [run_tick, hauto, hsp, hrp]

theorem c2_tick_aborts_witness :
    (ch0.auto_post_enabled = true) ∧ (sp_all ch0 = true) ∧
    (rp_fail_first ch0 = Except.error "boom") ∧
    run_tick sp_all rp_fail_first [ch0, chB] = ([ch0], some "boom") :=
  ⟨by decide, by decide, by decide,
   c2_tick_aborts sp_all rp_fail_first ch0 [chB] "boom" (by decide) (by decide) (by decide)⟩

theorem insert_desc_perm (c : NewsCandidate) (l : List NewsCandidate) :
    (insert_desc c l).Perm (c :: l) := by
  induction l with
  | nil => exact List.Perm.refl _
  | cons d rest ih =>
    simp only [insert_desc]
    split
    · exact List.Perm.refl _
    · exact (ih.cons d).trans (List.Perm.swap c d rest)

theorem sorted_desc_perm (l : List NewsCandidate) : (sorted_desc l).Perm l := by
  induction l with
  | nil => exact List.Perm.refl _
  | cons a t ih =>
    exact (insert_desc_perm a (sorted_desc t)).trans (ih.cons a)

theorem pick_mem (ps rand : ℕ) (l : List NewsCandidate) (c : NewsCandidate)
    (h : pick_best_candidate ps rand l = some c) : c ∈ l := by
  unfold pick_best_candidate at h
  have hmem := List.get?_mem h
  have hpool : c ∈ (sorted_desc l).take ps := by
    by_cases hpref : (((sorted_desc l).take ps).filter is_probably_article).isEmpty
    · simpa [hpref] using hmem
    · simp only [hpref, if_false] at hmem
      exact (List.mem_filter.mp hmem).1
  exact (sorted_desc_perm l).subset (List.take_subset _ _ hpool)

/-- C6 counterexample: an all-seen candidate list and an empty candidate
list produce the same empty outcome of generate, so the claimed
distinction between a nothing-new report and a nothing-fetched report
does not exist in the observable result. -/
theorem c6_counterexample :
    generate_select ["s1"] fetch_c6a ["http://news.example/x"] 5 0 = none ∧
    generate_select ["s1"] fetch_c6b [] 5 0 = none ∧
    ¬(generate_select ["s1"] fetch_c6a ["http://news.example/x"] 5 0 ≠
      generate_select ["s1"] fetch_c6b [] 5 0) := by
  decide

/-- C6 amended: every candidate whose normalized link is among the
normalized recent links is removed before ranking — a returned candidate
is never a seen one — and when this removal empties a nonempty candidate
list the generator skips (returns the empty result, the same empty
outcome as when nothing was fetched) rather than falling back to a seen
item. -/
theorem c6_seen_links_excluded (sources : List String)
    (fetch : String → Except String (List NewsCandidate))
    (recent : List String) (ps rand : ℕ) :
    (∀ c, generate_select sources fetch recent ps rand = some c →
      ((recent.filter (fun l => l ≠ "")).map normalize_link).contains (normalize_link c.link)
        = false) ∧
    ((collect_candidates sources fetch).isEmpty = false →
      ((collect_candidates sources fetch).filter (fun c =>
        !((recent.filter (fun l => l ≠ "")).map normalize_link).contains
          (normalize_link c.link))).isEmpty = true →
      ((recent.filter (fun l => l ≠ "")).map normalize_link).isEmpty = false →
      generate_select sources fetch recent ps rand = none) := by
  constructor
  · intro c h
    unfold generate_select at h
    by_cases hs : sources.isEmpty
    · simp [hs] at h
    · simp only [hs, Bool.false_eq_true, if_false] at h
      by_cases hce : (collect_candidates sources fetch).isEmpty
      · simp [hce] at h
      · simp only [hce, Bool.false_eq_true, if_false] at h
        by_cases hf : ((collect_candidates sources fetch).filter (fun c =>
            !((recent.filter (fun l => l ≠ "")).map normalize_link).contains
              (normalize_link c.link))).isEmpty
        · simp only [hf, Bool.not_true, Bool.false_eq_true, if_false] at h
          by_cases hsl : ((recent.filter (fun l => l ≠ "")).map normalize_link).isEmpty
          · rw [List.isEmpty_iff] at hsl
            rw [hsl]
            rfl
          · rw [Bool.not_eq_true] at hsl
            rw [hsl] at h
            simp only [Bool.not_false, if_true] at h
            exact Option.noConfusion h
        · simp only [hf, Bool.not_false, if_true] at h
          have := pick_mem _ _ _ _ h
          have := (List.mem_filter.mp this).2
          simpa using this
  · intro h1 h2 h3
    unfold generate_select
    by_cases hs : sources.isEmpty
    · simp [hs]
    · rw [Bool.not_eq_true] at hs
      simp only [hs, h1, h2, h3, Bool.not_true, Bool.not_false, Bool.false_eq_true, if_false,
        if_true]

theorem c6_seen_links_excluded_witness :
    generate_select ["s1"] fetch_c6a ["http://news.example/x"] 5 0 = none :=
  (c6_seen_links_excluded ["s1"] fetch_c6a ["http://news.example/x"] 5 0).2
    (by decide) (by decide) (by decide)

theorem is_probably_article_iff (c : NewsCandidate) :
    is_probably_article c = true ↔
      (20 ≤ (squash_spaces c.summary).length ∧ looks_like_section_link c.link = false) := by
  unfold is_probably_article
  split_ifs with h1 h2 <;> simp_all

theorem looks_like_section_link_iff (link : String) (parsed : ParseRes)
    (hp : urlparse link = some parsed) :
    looks_like_section_link link = false ↔
      ((∀ m ∈ section_markers, ¬(('/' :: m.data) <:+: parsed.path.map Char.toLower)) ∧
        ¬(parsed.query ≠ [] ∧ ("section".data <:+: parsed.query.map Char.toLower))) := by
  unfold looks_like_section_link
  rw [hp]
  simp only [is_substring]
  split_ifs with h1 h2
  · simp only [List.any_eq_true, decide_eq_true_eq] at h1
    obtain ⟨m, hm, hsub⟩ := h1
    simp only [false_iff, not_and_or, not_forall]
    left
    push_neg
    exact ⟨m, hm, hsub⟩
  · simp only [Bool.and_eq_true, Bool.not_eq_true', List.isEmpty_eq_false,
      decide_eq_true_eq] at h2
    simp only [false_iff, not_and_or]
    right
    push_neg
    exact h2
  · simp only [List.any_eq_true, decide_eq_true_eq] at h1
    push_neg at h1
    constructor
    · intro
      refine ⟨?_, ?_⟩
      · intro m hm
        exact h1 m hm
      · intro hq
        apply h2
        simp only [Bool.and_eq_true, Bool.not_eq_true', List.isEmpty_eq_false,
          decide_eq_true_eq]
        exact ⟨hq.1, hq.2⟩
    · intro
      rfl

/-- C8 counterexample: a candidate with a long summary and the link path
/sectional-news/story1 — no marker occurs as a path segment and the query
is empty, so the claimed predicate accepts it, yet _is_probably_article
rejects it because the code matches the markers as substrings and
/section occurs inside /sectional-news. -/
theorem c8_counterexample :
    article_pred_per_claim cex_c8 = true ∧ is_probably_article cex_c8 = false ∧
    ¬(is_probably_article cex_c8 = true ↔ article_pred_per_claim cex_c8 = true) := by
  decide

/-- C8 amended: the article predicate holds iff the whitespace-collapsed
summary has at least 20 characters, no slash-plus-marker occurs as a
substring of the lower-cased path (so /sectional-news also trips the
section marker), and section does not occur in the lower-cased query;
when at least one pool member passes, the pick is confined to the passing
members. -/
theorem c8_article_filter (c : NewsCandidate) (parsed : ParseRes)
    (hp : urlparse c.link = some parsed) :
    (is_probably_article c = true ↔
      (20 ≤ (squash_spaces c.summary).length ∧
        (∀ m ∈ section_markers, ¬(('/' :: m.data) <:+: parsed.path.map Char.toLower)) ∧
        ¬(parsed.query ≠ [] ∧ ("section".data <:+: parsed.query.map Char.toLower)))) ∧
    (∀ ps rand cands,
      ((sorted_desc cands).take ps).filter is_probably_article ≠ [] →
      ∃ chosen, pick_best_candidate ps rand cands = some chosen ∧
        chosen ∈ ((sorted_desc cands).take ps).filter is_probably_article) := by
  constructor
  · rw [is_probably_article_iff, looks_like_section_link_iff c.link parsed hp]
  · intro ps rand cands hne
    unfold pick_best_candidate
    have hie : (((sorted_desc cands).take ps).filter is_probably_article).isEmpty = false := by
      rw [List.isEmpty_eq_false]
      exact hne
    simp only [hie, Bool.false_eq_true, if_false]
    have hlen : 0 < (((sorted_desc cands).take ps).filter is_probably_article).length :=
      List.length_pos.mpr hne
    have hlt : rand % (((sorted_desc cands).take ps).filter is_probably_article).length
        < (((sorted_desc cands).take ps).filter is_probably_article).length :=
      Nat.mod_lt _ hlen
    refine ⟨_, List.get?_eq_get hlt, List.get_mem _ _ hlt⟩

theorem c8_article_filter_witness :
    (urlparse d1.link = some ⟨"http".data, "news.example".data, "/1".data, [], []⟩) ∧
    ((is_probably_article d1 = true ↔
      (20 ≤ (squash_spaces d1.summary).length ∧
        (∀ m ∈ section_markers,
          ¬(('/' :: m.data) <:+:
            (⟨"http".data, "news.example".data, "/1".data, [], []⟩ : ParseRes).path.map
              Char.toLower)) ∧
        ¬((⟨"http".data, "news.example".data, "/1".data, [], []⟩ : ParseRes).query ≠ [] ∧
          ("section".data <:+:
            (⟨"http".data, "news.example".data, "/1".data, [], []⟩ : ParseRes).query.map
              Char.toLower)))) ∧
    (∀ ps rand cands,
      ((sorted_desc cands).take ps).filter is_probably_article ≠ [] →
      ∃ chosen, pick_best_candidate ps rand cands = some chosen ∧
        chosen ∈ ((sorted_desc cands).take ps).filter is_probably_article)) :=
  ⟨by decide,
   c8_article_filter d1 ⟨"http".data, "news.example".data, "/1".data, [], []⟩ (by decide)⟩

theorem py_alpha_not_c0 (c : Char) (h : py_alpha c = true) : is_c0_or_space c = false := by
  simp only [py_alpha, Bool.or_eq_true, Bool.and_eq_true, decide_eq_true_eq] at h
  simp only [is_c0_or_space, decide_eq_false_iff_not]
  omega

theorem ne_of_decidable_false {P : Char → Bool} (c d : Char) (hc : P c = true)
    (hd : P d = false) : c ≠ d := by
  intro h
  rw [h, hd] at hc
  exact Bool.noConfusion hc

theorem findIdx?_append_of (p : Char → Bool) (x : Char) (l₂ : List Char) (hx : p x = true) :
    ∀ (l₁ : List Char) (i : ℕ), (∀ c ∈ l₁, p c = false) →
      List.findIdx? p (l₁ ++ x :: l₂) i = some (l₁.length + i) := by
  intro l₁
  induction l₁ with
  | nil =>
    intro i _
    simp [List.findIdx?_cons, hx]
  | cons a t ih =>
    intro i h1
    rw [List.cons_append, List.findIdx?_cons, h1 a (by simp)]
    simp only [Bool.false_eq_true, if_false]
    rw [ih (i + 1) (fun c hc => h1 c (by simp [hc]))]
    congr 1
    simp
    omega

theorem findIdx?_eq_none_of (p : Char → Bool) :
    ∀ (l : List Char) (i : ℕ), (∀ c ∈ l, p c = false) → List.findIdx? p l i = none := by
  intro l
  induction l with
  | nil => intro i _; rfl
  | cons a t ih =>
    intro i h
    rw [List.findIdx?_cons, h a (by simp)]
    simp only [Bool.false_eq_true, if_false]
    exact ih (i + 1) (fun c hc => h c (by simp [hc]))

theorem split_first_not_mem (ch : Char) (l : List Char) (h : ∀ c ∈ l, c ≠ ch) :
    split_first ch l = (l, []) := by
  unfold split_first
  rw [findIdx?_eq_none_of _ l 0 (fun c hc => by
    simp only [beq_eq_false_iff_ne]
    exact h c hc)]

theorem contains_eq_false_of (l : List Char) (x : Char) (h : ∀ c ∈ l, c ≠ x) :
    l.contains x = false := by
  simp only [List.contains, List.elem_eq_mem, decide_eq_false_iff_not]
  intro hx
  exact h x hx rfl

theorem takeWhile_append_all (q : Char → Bool) :
    ∀ (n p : List Char), (∀ c ∈ n, q c = true) →
      (p = [] ∨ ∃ c t, p = c :: t ∧ q c = false) →
      (n ++ p).takeWhile q = n ∧ (n ++ p).dropWhile q = p := by
  intro n
  induction n with
  | nil =>
    intro p _ hp
    rcases hp with rfl | ⟨c, t, rfl, hc⟩
    · simp
    · simp [List.takeWhile_cons, List.dropWhile_cons, hc]
  | cons a t ih =>
    intro p h hp
    have ha : q a = true := h a (by simp)
    have := ih p (fun c hc => h c (by simp [hc])) hp
    simp [List.takeWhile_cons, List.dropWhile_cons, ha, this.1, this.2]

theorem scheme_char_toLower (c : Char) (h : scheme_char c = true) :
    scheme_char (Char.toLower c) = true := by
  rcases toLower_shape c with hc | hc
  · rwa [hc]
  · have hpa : py_alpha (Char.toLower c) = true := by
      simp only [py_alpha, Bool.or_eq_true, Bool.and_eq_true, decide_eq_true_eq]
      omega
    simp [scheme_char, hpa]

theorem py_alpha_toLower (c : Char) (h : py_alpha c = true) :
    py_alpha (Char.toLower c) = true := by
  rcases toLower_shape c with hc | hc
  · rwa [hc]
  · simp only [py_alpha, Bool.or_eq_true, Bool.and_eq_true, decide_eq_true_eq]
    omega

theorem toLower_ne_of_not_letter (c x : Char) (hx : ¬(97 ≤ x.toNat ∧ x.toNat ≤ 122))
    (hc : c ≠ x) : Char.toLower c ≠ x := by
  rcases toLower_shape c with h | h
  · rwa [h]
  · intro he
    rw [he] at h
    exact hx h

theorem map_toLower_map_toLower (l : List Char) :
    (l.map Char.toLower).map Char.toLower = l.map Char.toLower := by
  rw [List.map_map]
  apply List.map_congr_left
  intro c _
  exact toLower_idem c

theorem contains_map_toLower (n : List Char) (x : Char)
    (hfix : Char.toLower x = x) (hx : ¬(97 ≤ x.toNat ∧ x.toNat ≤ 122)) :
    (n.map Char.toLower).contains x = n.contains x := by
  induction n with
  | nil => rfl
  | cons a t ih =>
    simp only [List.map_cons, List.contains_cons, ih]
    congr 1
    by_cases ha : a = x
    · rw [ha, hfix]
    · have h1 : (x == a) = false := beq_eq_false_iff_ne.mpr (Ne.symm ha)
      have h2 : (x == Char.toLower a) = false :=
        beq_eq_false_iff_ne.mpr (Ne.symm (toLower_ne_of_not_letter a x hx ha))
      rw [h1, h2]

theorem rstrip_slash_prefix (p : List Char) : rstrip_slash p <+: p := by
  unfold rstrip_slash
  have h := List.dropWhile_suffix (l := p.reverse) (fun c => c == '/')
  have := List.reverse_prefix.mpr h
  rwa [List.reverse_reverse] at this

theorem dropWhile_idem (q : Char → Bool) (l : List Char) :
    (l.dropWhile q).dropWhile q = l.dropWhile q := by
  induction l with
  | nil => rfl
  | cons a t ih =>
    by_cases ha : q a = true
    · simp [List.dropWhile_cons, ha, ih]
    · rw [Bool.not_eq_true] at ha
      simp [List.dropWhile_cons, ha]

theorem rstrip_slash_idem (p : List Char) :
    rstrip_slash (rstrip_slash p) = rstrip_slash p := by
  unfold rstrip_slash
  rw [List.reverse_reverse, dropWhile_idem]

theorem rstrip_slash_append_slash (p : List Char) :
    rstrip_slash (p ++ ['/']) = rstrip_slash p := by
  unfold rstrip_slash
  rw [List.reverse_append]
  rfl

theorem split_scheme_mk (s rest : List Char) (hs : good_scheme s = true) :
    split_scheme (s ++ ':' :: rest) = (s.map Char.toLower, rest) := by
  obtain ⟨c, t, rfl⟩ : ∃ c t, s = c :: t := by
    cases s with
    | nil => exact absurd hs (by decide)
    | cons c t => exact ⟨c, t, rfl⟩
  simp only [good_scheme, Bool.and_eq_true] at hs
  obtain ⟨hpa, hall⟩ := hs
  have hallm : ∀ x ∈ c :: t, scheme_char x = true := List.all_eq_true.mp hall
  have hnotcolon : ∀ x ∈ c :: t, ((x == ':') = false) := fun x hx =>
    beq_eq_false_iff_ne.mpr
      (ne_of_decidable_false x ':' (hallm x hx) (by decide))
  have htake : (((c :: t) ++ ':' :: rest).take (c :: t).length) = c :: t :=
    List.take_left _ _
  have hdrop : ((c :: t) ++ ':' :: rest).drop ((c :: t).length + 1) = rest := by
    rw [show (c :: t) ++ ':' :: rest = ((c :: t) ++ [':']) ++ rest by simp]
    rw [List.drop_left']
    simp
  have hmatch : (match (c :: t) ++ ':' :: rest with
      | x :: _ => py_alpha x | [] => false) = true := by
    rw [List.cons_append]
    exact hpa
  unfold split_scheme
  rw [findIdx?_append_of (fun x => x == ':') ':' rest (by simp) (c :: t) 0 hnotcolon]
  simp only [Nat.add_zero]
  rw [if_pos]
  · rw [htake, hdrop]
  · simp only [Bool.and_eq_true, decide_eq_true_eq]
    exact ⟨⟨by simp, hmatch⟩, by rw [htake]; exact hall⟩

theorem not_unsafe_of_ne (x : Char) (h1 : x ≠ '\t') (h2 : x ≠ '\r') (h3 : x ≠ '\n') :
    (!(x == '\t' || x == '\r' || x == '\n')) = true := by
  simp [h1, h2, h3]

theorem netloc_ok_char_parts (x : Char) (h : netloc_ok_char x = true) :
    netloc_delim x = false ∧ (!(x == '\t' || x == '\r' || x == '\n')) = true := by
  simp only [netloc_ok_char, Bool.and_eq_true, Bool.not_eq_true'] at h
  exact ⟨h.1, by simp [h.2]⟩

theorem path_ok_char_parts (x : Char) (h : path_ok_char x = true) :
    x ≠ '?' ∧ x ≠ '#' ∧ x ≠ ';' ∧ x ≠ '\t' ∧ x ≠ '\r' ∧ x ≠ '\n' := by
  simp only [path_ok_char, Bool.not_eq_true', Bool.or_eq_false_iff, beq_eq_false_iff_ne] at h
  exact ⟨h.1.1.1.1.1, h.1.1.1.1.2, h.1.1.1.2, h.1.1.2, h.1.2, h.2⟩

theorem good_path_parts (p : List Char) (hp : good_path p = true) :
    (∀ x ∈ p, path_ok_char x = true) ∧ (p = [] ∨ ∃ t', p = '/' :: t') := by
  cases p with
  | nil => exact ⟨by simp, Or.inl rfl⟩
  | cons x t' =>
    simp only [good_path, Bool.and_eq_true, beq_iff_eq] at hp
    obtain ⟨rfl, hall⟩ := hp
    exact ⟨List.all_eq_true.mp hall, Or.inr ⟨t', rfl⟩⟩

theorem scheme_char_not_unsafe (x : Char) (h : scheme_char x = true) :
    (!(x == '\t' || x == '\r' || x == '\n')) = true :=
  not_unsafe_of_ne x
    (ne_of_decidable_false x '\t' h (by decide))
    (ne_of_decidable_false x '\r' h (by decide))
    (ne_of_decidable_false x '\n' h (by decide))

theorem urlsplit_mk (s n p : List Char) (hs : good_scheme s = true)
    (hn : good_netloc n = true) (hp : good_path p = true) :
    urlsplit (mk_url s n p) = some ⟨s.map Char.toLower, n, p, [], []⟩ := by
  obtain ⟨c, t, rfl⟩ : ∃ c t, s = c :: t := by
    cases s with
    | nil => exact absurd hs (by decide)
    | cons c t => exact ⟨c, t, rfl⟩
  have hpa : py_alpha c = true := by
    simp only [good_scheme, Bool.and_eq_true] at hs
    exact hs.1
  have hsall : ∀ x ∈ c :: t, scheme_char x = true := by
    simp only [good_scheme, Bool.and_eq_true] at hs
    exact List.all_eq_true.mp hs.2
  have hnall : ∀ x ∈ n, netloc_ok_char x = true := by
    simp only [good_netloc, Bool.and_eq_true] at hn
    exact List.all_eq_true.mp hn.1.2
  have hbr : n.contains '[' = n.contains ']' := by
    simp only [good_netloc, Bool.and_eq_true, beq_iff_eq] at hn
    exact hn.2
  obtain ⟨hpall, hphead⟩ := good_path_parts p hp
  have h1 : (c :: (t ++ ':' :: '/' :: '/' :: (n ++ p))).dropWhile is_c0_or_space
      = c :: (t ++ ':' :: '/' :: '/' :: (n ++ p)) := by
    rw [List.dropWhile_cons, py_alpha_not_c0 c hpa]
    simp
  have h2 : remove_unsafe (c :: (t ++ ':' :: '/' :: '/' :: (n ++ p)))
      = c :: (t ++ ':' :: '/' :: '/' :: (n ++ p)) := by
    apply List.filter_eq_self.mpr
    intro x hx
    simp only [List.mem_cons, List.mem_append] at hx
    rcases hx with hx | hx | hx | hx | hx | hx | hx
    · subst hx
      exact scheme_char_not_unsafe x (hsall x (by simp))
    · exact scheme_char_not_unsafe x (hsall x (by simp [hx]))
    · subst hx; decide
    · subst hx; decide
    · subst hx; decide
    · exact (netloc_ok_char_parts x (hnall x hx)).2
    · have hparts := path_ok_char_parts x (hpall x hx)
      exact not_unsafe_of_ne x hparts.2.2.2.1 hparts.2.2.2.2.1 hparts.2.2.2.2.2
  have h3 : split_scheme (c :: (t ++ ':' :: '/' :: '/' :: (n ++ p)))
      = ((c :: t).map Char.toLower, '/' :: '/' :: (n ++ p)) := by
    rw [← List.cons_append]
    exact split_scheme_mk (c :: t) ('/' :: '/' :: (n ++ p)) hs
  have h4 : (n ++ p).takeWhile (fun x => !netloc_delim x) = n ∧
      (n ++ p).dropWhile (fun x => !netloc_delim x) = p := by
    apply takeWhile_append_all
    · intro x hx
      simp [(netloc_ok_char_parts x (hnall x hx)).1]
    · rcases hphead with rfl | ⟨t', rfl⟩
      · left; rfl
      · right
        exact ⟨'/', t', rfl, by decide⟩
  have h5 : split_first '#' p = (p, []) :=
    split_first_not_mem '#' p (fun x hx => (path_ok_char_parts x (hpall x hx)).2.1)
  have h6 : split_first '?' p = (p, []) :=
    split_first_not_mem '?' p (fun x hx => (path_ok_char_parts x (hpall x hx)).1)
  have hbr2 : ((n.contains '[' && !n.contains ']')
      || (n.contains ']' && !n.contains '[')) = false := by
    rw [hbr]
    cases n.contains ']' <;> rfl
  unfold urlsplit
  rw [show (mk_url (c :: t) n p).data = c :: (t ++ ':' :: '/' :: '/' :: (n ++ p)) by
    simp [mk_url]]
  rw [h1, h2]
  dsimp only
  rw [h3]
  dsimp only
  simp only [split_netloc, List.take_succ_cons, List.take_zero, List.drop_succ_cons,
    List.drop_zero, beq_self_eq_true, if_true]
  rw [h4.1, h4.2, hbr2]
  simp [h5, h6]

theorem urlparse_mk (s n p : List Char) (hs : good_scheme s = true)
    (hn : good_netloc n = true) (hp : good_path p = true) :
    urlparse (mk_url s n p) = some ⟨s.map Char.toLower, n, p, [], []⟩ := by
  have hsemi : p.contains ';' = false :=
    contains_eq_false_of p ';'
      (fun x hx => (path_ok_char_parts x ((good_path_parts p hp).1 x hx)).2.2.1)
  simp only [urlparse]
  rw [urlsplit_mk s n p hs hn hp]
  simp only [List.contains, List.elem_eq_mem, decide_eq_false_iff_not] at hsemi
  simp [hsemi]

theorem normalize_mk (s n p : List Char) (hs : good_scheme s = true)
    (hn : good_netloc n = true) (hp : good_path p = true) :
    normalize_link (mk_url s n p)
      = mk_url (s.map Char.toLower) (n.map Char.toLower) (rstrip_slash p) := by
  have hne : n.isEmpty = false := by
    simp only [good_netloc, Bool.and_eq_true, Bool.not_eq_true'] at hn
    exact hn.1.1
  have hse : (s.map Char.toLower).isEmpty = false := by
    cases s with
    | nil => exact absurd hs (by decide)
    | cons c t => rfl
  unfold normalize_link
  rw [urlparse_mk s n p hs hn hp]
  dsimp only
  rw [map_toLower_map_toLower]
  rw [hne, hse]
  simp only [Bool.false_eq_true, if_false]
  rfl

theorem char_beq_false_of_letter (d x : Char) (hd : 97 ≤ d.toNat ∧ d.toNat ≤ 122)
    (hx : ¬(97 ≤ x.toNat ∧ x.toNat ≤ 122)) : (d == x) = false :=
  beq_eq_false_iff_ne.mpr (fun he => hx (he ▸ hd))

theorem netloc_ok_char_toLower (x : Char) (h : netloc_ok_char x = true) :
    netloc_ok_char (Char.toLower x) = true := by
  rcases toLower_shape x with hc | hc
  · rwa [hc]
  · have h1 := char_beq_false_of_letter _ '/' hc (by decide)
    have h2 := char_beq_false_of_letter _ '?' hc (by decide)
    have h3 := char_beq_false_of_letter _ '#' hc (by decide)
    have h4 := char_beq_false_of_letter _ '\t' hc (by decide)
    have h5 := char_beq_false_of_letter _ '\r' hc (by decide)
    have h6 := char_beq_false_of_letter _ '\n' hc (by decide)
    simp [netloc_ok_char, netloc_delim, h1, h2, h3, h4, h5, h6]

theorem good_scheme_toLower (s : List Char) (hs : good_scheme s = true) :
    good_scheme (s.map Char.toLower) = true := by
  obtain ⟨c, t, rfl⟩ : ∃ c t, s = c :: t := by
    cases s with
    | nil => exact absurd hs (by decide)
    | cons c t => exact ⟨c, t, rfl⟩
  simp only [good_scheme, Bool.and_eq_true] at hs
  simp only [List.map_cons, good_scheme, Bool.and_eq_true]
  refine ⟨py_alpha_toLower c hs.1, ?_⟩
  rw [← List.map_cons]
  rw [List.all_map]
  apply List.all_eq_true.mpr
  intro x hx
  exact scheme_char_toLower x (List.all_eq_true.mp hs.2 x hx)

theorem good_netloc_toLower (n : List Char) (hn : good_netloc n = true) :
    good_netloc (n.map Char.toLower) = true := by
  simp only [good_netloc, Bool.and_eq_true, beq_iff_eq] at hn ⊢
  refine ⟨⟨?_, ?_⟩, ?_⟩
  · cases n with
    | nil => exact absurd hn.1.1 (by decide)
    | cons c t => rfl
  · rw [List.all_map]
    apply List.all_eq_true.mpr
    intro x hx
    exact netloc_ok_char_toLower x (List.all_eq_true.mp hn.1.2 x hx)
  · rw [contains_map_toLower n '[' (by decide) (by decide),
      contains_map_toLower n ']' (by decide) (by decide)]
    exact hn.2

theorem good_path_rstrip (p : List Char) (hp : good_path p = true) :
    good_path (rstrip_slash p) = true := by
  have hpre := rstrip_slash_prefix p
  obtain ⟨hpall, _⟩ := good_path_parts p hp
  cases hr : rstrip_slash p with
  | nil => rfl
  | cons x t' =>
    obtain ⟨u, hu⟩ := hpre
    rw [hr] at hu
    have hphead : x = '/' := by
      cases p with
      | nil => simp at hu
      | cons y t =>
        simp only [good_path, Bool.and_eq_true, beq_iff_eq] at hp
        have : x = y := by
          have := hu
          rw [List.cons_append] at this
          exact (List.cons.injEq x (t' ++ u) y t).mp this |>.1
        rw [this, hp.1]
    subst hphead
    simp only [good_path, Bool.and_eq_true, beq_iff_eq]
    refine ⟨trivial, ?_⟩
    apply List.all_eq_true.mpr
    intro z hz
    apply hpall
    rw [← hu]
    exact List.mem_append_left u hz

theorem good_path_append_slash (p : List Char) (hp : good_path p = true) :
    good_path (p ++ ['/']) = true := by
  cases p with
  | nil => rfl
  | cons x t =>
    simp only [good_path, Bool.and_eq_true, beq_iff_eq] at hp
    rw [List.cons_append]
    simp only [good_path, Bool.and_eq_true, beq_iff_eq]
    refine ⟨hp.1, ?_⟩
    apply List.all_eq_true.mpr
    intro z hz
    rw [← List.cons_append] at hz
    rcases List.mem_append.mp hz with hz | hz
    · exact List.all_eq_true.mp hp.2 z hz
    · simp only [List.mem_singleton] at hz
      subst hz
      decide

/-- C7 counterexample: because urlparse strips the semicolon params of
the last path segment only, normalize applied to http://h/a;b/ yields
http://h/a;b and applying it again yields http://h/a — normalize is not
idempotent — and the same pair shows two URLs differing only in a
trailing slash on the path normalizing to different strings. -/
theorem c7_counterexample :
    normalize_link (normalize_link "http://h/a;b/") ≠ normalize_link "http://h/a;b/" ∧
    normalize_link "http://h/a;b/" ≠ normalize_link "http://h/a;b" := by
  decide

/-- C7 amended: on well-formed scheme://host/path URLs whose path holds
no query, fragment or semicolon, normalize is idempotent; adding a
trailing slash to the path does not change the result; changing letter
case inside the scheme or the host does not change the result; and a URL
whose parse fails or yields no host is returned unchanged, hence
trivially idempotent.  (With a semicolon in the path the params split
makes the first two statements false, per the counterexample.) -/
theorem c7_normalize_props (s n p s2 n2 : List Char)
    (hs : good_scheme s = true) (hn : good_netloc n = true) (hp : good_path p = true)
    (hs2 : good_scheme s2 = true) (hn2 : good_netloc n2 = true)
    (hls : s2.map Char.toLower = s.map Char.toLower)
    (hln : n2.map Char.toLower = n.map Char.toLower) :
    normalize_link (normalize_link (mk_url s n p)) = normalize_link (mk_url s n p) ∧
    normalize_link (mk_url s n (p ++ ['/'])) = normalize_link (mk_url s n p) ∧
    normalize_link (mk_url s2 n2 p) = normalize_link (mk_url s n p) ∧
    (∀ u r, urlparse u = some r → r.netloc = [] →
      normalize_link u = u ∧ normalize_link (normalize_link u) = u) ∧
    (∀ u, urlparse u = none →
      normalize_link u = u ∧ normalize_link (normalize_link u) = u) := by
  have e1 := normalize_mk s n p hs hn hp
  refine ⟨?_, ?_, ?_, ?_, ?_⟩
  · rw [e1, normalize_mk _ _ _ (good_scheme_toLower s hs) (good_netloc_toLower n hn)
      (good_path_rstrip p hp)]
    rw [map_toLower_map_toLower, map_toLower_map_toLower, rstrip_slash_idem]
  · rw [normalize_mk s n (p ++ ['/']) hs hn (good_path_append_slash p hp),
      rstrip_slash_append_slash, e1]
  · rw [normalize_mk s2 n2 p hs2 hn2 hp, hls, hln, e1]
  · intro u r hu hnet
    have h1 : normalize_link u = u := by
      unfold normalize_link
      rw [hu]
      simp [hnet]
    exact ⟨h1, by rw [h1, h1]⟩
  · intro u hu
    have h1 : normalize_link u = u := by
      unfold normalize_link
      rw [hu]
    exact ⟨h1, by rw [h1, h1]⟩

theorem c7_normalize_props_witness :
    (good_scheme "HTTP".data = true) ∧ (good_netloc "Example.COM".data = true) ∧
    (good_path "/Path/Sub".data = true) ∧ (good_scheme "hTtp".data = true) ∧
    (good_netloc "example.com".data = true) ∧
    ("hTtp".data.map Char.toLower = "HTTP".data.map Char.toLower) ∧
    ("example.com".data.map Char.toLower = "Example.COM".data.map Char.toLower) ∧
    (normalize_link (normalize_link (mk_url "HTTP".data "Example.COM".data "/Path/Sub".data))
        = normalize_link (mk_url "HTTP".data "Example.COM".data "/Path/Sub".data) ∧
      normalize_link (mk_url "HTTP".data "Example.COM".data ("/Path/Sub".data ++ ['/']))
        = normalize_link (mk_url "HTTP".data "Example.COM".data "/Path/Sub".data) ∧
      normalize_link (mk_url "hTtp".data "example.com".data "/Path/Sub".data)
        = normalize_link (mk_url "HTTP".data "Example.COM".data "/Path/Sub".data) ∧
      (∀ u r, urlparse u = some r → r.netloc = [] →
        normalize_link u = u ∧ normalize_link (normalize_link u) = u) ∧
      (∀ u, urlparse u = none →
        normalize_link u = u ∧ normalize_link (normalize_link u) = u)) :=
  ⟨by decide, by decide, by decide, by decide, by decide, by decide, by decide,
   c7_normalize_props "HTTP".data "Example.COM".data "/Path/Sub".data "hTtp".data
     "example.com".data (by decide) (by decide) (by decide) (by decide) (by decide)
     (by decide) (by decide)⟩
